import Mathlib

/-!
# Verification of the ABCD_ML evaluation engine

A shallow embedding of the cross-validation / model-evaluation engine of
this repository (`ABCD_ML/pipeline/Model_Pipeline.py` and
`ABCD_ML/helpers/Scopes.py`), together with theorems settling the frozen
claims about its natural-language specification.

Conventions of the embedding:
* subjects are natural numbers, column keys are strings, numeric cell
  values are rationals (numpy floats are modelled as `ℚ`);
* pandas DataFrames are modelled by `Frame` (an index list, an ordered
  column list, and a partial cell map);  the mutable frames reachable
  from the engine live in an explicit heap (`EngineState`), so that
  in-place `.loc` writes and object identity are visible;
* external collaborator modules that are not part of the five source
  files (the CV split generator, the metric registry, the pipeline
  builder / search wrapper) are modelled from the spec, each marked with
  a `Modelled from the spec:` doc comment;
* logging / progress-bar calls are pure I/O and are omitted.
-/

namespace ABCDML

abbrev Subj := ℕ
abbrev Key := String

/-- A cell value of the raw-prediction ledger: either a numeric entry or a
string tag (the `_fold` column stores strings such as `"test"`). -/
inductive Val where
  | num (q : ℚ)
  | str (s : String)
  deriving DecidableEq, Repr

/- ------------------------------------------------------------------ -/
/- Scopes.py : the scope resolver                                      -/
/- ------------------------------------------------------------------ -/

/-- The key lists held by `Scopes.__init__` (`helpers/Scopes.py`). -/
structure ScopesData where
  dataKeys : List Key
  dataFileKeys : List Key
  catKeys : List Key
  stratKeys : List Key
  covarsKeys : List Key
  deriving Repr

/-- Modelled from the spec: `helpers/VARS.py` (the module holding the
`SCOPES` constant) is not under `src/`; the set is reconstructed as exactly
the scope strings `get_keys_from_scope` handles (its final `else` branch
prints "Should never reach here", so `SCOPES` holds no other string). -/
def SCOPES : List String :=
  ["float", "data", "data files", "float covars", "fc",
   "all", "n", "cat", "categorical", "covars"]

/-- A scope argument: either a plain string or a list of strings
(`is_scope` wrappers from the absent `Input_Tools` module carry the same
payload and are unwrapped immediately, so they are not modelled). -/
inductive ScopeInput where
  | strScope (s : String)
  | listScope (l : List String)
  deriving Repr

/-- Python's `x in y` substring test on strings. -/
def strContains (outer inner : String) : Bool :=
  decide (List.IsInfix inner.data outer.data)

/-- The `try: keys.remove(key) except ValueError: pass` loop at the end of
`Scopes.get_keys_from_scope`: remove the first occurrence of each key at
the end (a missing key is a no-op, matching the swallowed `ValueError`). -/
def eraseKeys (l ends : List Key) : List Key :=
  ends.foldl (fun ks k => ks.erase k) l

/-- The `scope in SCOPES` string branch of `get_keys_from_scope`, before
the trailing `keys.remove` loop.  `allKeys` is `self.all_keys` at call
time.  The final branch is unreachable (`SCOPES` holds exactly the handled
strings); it is modelled as `[]`. -/
def presetRawKeys (sd : ScopesData) (allKeys : List Key) (s : String) : List Key :=
  if s = "float" then allKeys.filter (fun k => k ∉ sd.catKeys)
  else if s = "data" then sd.dataKeys
  else if s = "data files" then sd.dataFileKeys
  else if s = "float covars" ∨ s = "fc" then
    allKeys.filter (fun k => k ∉ sd.catKeys ∧ k ∉ sd.dataKeys)
  else if s = "all" ∨ s = "n" then allKeys
  else if s = "cat" ∨ s = "categorical" then sd.catKeys
  else if s = "covars" then sd.covarsKeys
  else []

/-- The full result of `get_keys_from_scope` on a string that is in
`SCOPES` (string branch followed by the `keys.remove` loop).  This is what
the recursive call `self.get_keys_from_scope(key)` returns for a `SCOPES`
element of a list scope. -/
def presetScopeKeys (sd : ScopesData) (allKeys ends : List Key) (s : String) : List Key :=
  eraseKeys (presetRawKeys sd allKeys s) ends

/-- The `else` (list-like) branch of `get_keys_from_scope`, before the
`list(set(keys))` dedup: accumulate keys and `restrict_keys`, then extend
by the stub-substring restriction over `all_keys`. -/
def listBranchRaw (sd : ScopesData) (allKeys ends : List Key)
    (elems : List String) : List Key :=
  let acc := elems.foldl
    (fun (acc : List Key × List Key) key =>
      if key ∈ SCOPES then (acc.1 ++ presetScopeKeys sd allKeys ends key, acc.2)
      else if key ∈ allKeys then (acc.1 ++ [key], acc.2)
      else (acc.1, acc.2 ++ [key]))
    ([], [])
  if acc.2.length > 0 then
    acc.1 ++ allKeys.filter (fun a => acc.2.all (fun r => strContains a r))
  else acc.1

/-- `Scopes.get_keys_from_scope`.  `list(set(keys))` returns the distinct
keys in an unspecified (hash) order; it is modelled as `List.dedup`, which
is faithful up to permutation. -/
def getKeysFromScope (sd : ScopesData) (allKeys ends : List Key) :
    ScopeInput → List Key
  | .strScope s =>
      if s ∈ SCOPES then eraseKeys (presetRawKeys sd allKeys s) ends
      else eraseKeys (listBranchRaw sd allKeys ends [s]).dedup ends
  | .listScope l => eraseKeys (listBranchRaw sd allKeys ends l).dedup ends

/-- `self.keys_at_end = self.strat_keys + conv_to_list(targets_key)`
(`Scopes.set_all_keys`); the targets key is taken already `conv_to_list`ed. -/
def keysAtEnd (sd : ScopesData) (targetsKey : List Key) : List Key :=
  sd.stratKeys ++ targetsKey

/-- `self.all_keys` as first assigned inside `set_all_keys`, before the
scope filtering: `data_keys + covars_keys + keys_at_end`. -/
def allKeysInit (sd : ScopesData) (targetsKey : List Key) : List Key :=
  sd.dataKeys ++ sd.covarsKeys ++ keysAtEnd sd targetsKey

/-- `Scopes.set_all_keys`: the final `self.all_keys`, namely the scoped
keys followed by `keys_at_end`. -/
def setAllKeys (sd : ScopesData) (scope : ScopeInput) (targetsKey : List Key) :
    List Key :=
  getKeysFromScope sd (allKeysInit sd targetsKey) (keysAtEnd sd targetsKey) scope
    ++ keysAtEnd sd targetsKey

/- ------------------------------------------------------------------ -/
/- Frames and the engine heap                                          -/
/- ------------------------------------------------------------------ -/

/-- A pandas DataFrame: an ordered subject index, an ordered column list,
and a partial cell map (`none` = absent / NaN). -/
structure Frame where
  index : List Subj
  cols : List Key
  cells : Key → Subj → Option Val

/-- The empty frame. -/
def Frame.empty : Frame := ⟨[], [], fun _ _ => none⟩

/-- `data[keys]` — column selection. -/
def colSlice (f : Frame) (keys : List Key) : Frame :=
  { index := f.index
    cols := keys
    cells := fun k s => if k ∈ keys then f.cells k s else none }

/-- `data.loc[subjects]` — row selection by label, in the given order. -/
def rowSlice (f : Frame) (subs : List Subj) : Frame :=
  { f with index := subs }

/-- Reading a cell as a float (`np.array(...).astype(float)`): numeric
cells give their value.  Absent or string cells are coerced to `0`; the
engine only converts numeric feature/target cells, so this default is
never claim-bearing. -/
def valQ : Option Val → ℚ
  | some (.num q) => q
  | some (.str _) => 0
  | none => 0

/-- `df.loc[subjects, col] = vals` — positional vector write into one
column: row `subjects[i]` receives `vals[i]` (first occurrence for a
duplicated label), all other rows and columns are untouched, and a new
column is appended to the column order. -/
def writeColVec (f : Frame) (col : Key) (subs : List Subj) (vals : List ℚ) : Frame :=
  { index := f.index
    cols := if col ∈ f.cols then f.cols else f.cols ++ [col]
    cells := fun k s =>
      if k = col then
        match (subs.zip vals).find? (fun p => p.1 = s) with
        | some p => some (.num p.2)
        | none => f.cells k s
      else f.cells k s }

/-- `df.loc[subjects, col] = v` — scalar broadcast write into one column. -/
def writeColScalar (f : Frame) (col : Key) (subs : List Subj) (v : Val) : Frame :=
  { index := f.index
    cols := if col ∈ f.cols then f.cols else f.cols ++ [col]
    cells := fun k s =>
      if k = col ∧ s ∈ subs then some v else f.cells k s }

/-- The mutable state of one `Model_Pipeline` object: a heap of frames
(so that in-place writes and object identity are explicit), the reference
held by `self.raw_preds_df`, and `self.n_splits_` (`None` until
`_get_eval_splits` sets it). -/
structure EngineState where
  heap : ℕ → Frame
  next : ℕ
  rawPredsRef : ℕ
  nSplits : Option ℕ

/-- `self._init_raw_preds_df(subjects)`: allocate a fresh
`pd.DataFrame(index=subjects)` and point `self.raw_preds_df` at it. -/
def initRawPredsDf (st : EngineState) (subjects : List Subj) : EngineState :=
  { st with
    heap := fun r => if r = st.next then ⟨subjects, [], fun _ _ => none⟩ else st.heap r
    next := st.next + 1
    rawPredsRef := st.next }

/-- Apply an in-place mutation to the frame `self.raw_preds_df` points at. -/
def updateLedger (st : EngineState) (g : Frame → Frame) : EngineState :=
  { st with heap := fun r => if r = st.rawPredsRef then g (st.heap r) else st.heap r }

/- ------------------------------------------------------------------ -/
/- Models, metrics, targets                                            -/
/- ------------------------------------------------------------------ -/

/-- A feature matrix (`np.array` of rows). -/
abbrev Matrix := List (List ℚ)

/-- A target array as produced by `_get_X_y`: 1-D for a single target
key, 2-D (one column per key) for a list of target keys. -/
inductive YArr where
  | one (v : List ℚ)
  | two (m : List (List ℚ))
  deriving DecidableEq, Repr

/-- A `model.predict` output: 1-D, or 2-D for multi-column predictions. -/
inductive PredArr where
  | one (v : List ℚ)
  | two (m : List (List ℚ))
  deriving DecidableEq, Repr

/-- A `model.predict_proba` output, discriminated by array rank as in
`_add_raw_preds` (3-D multilabel, 2-D per-class, anything else). -/
inductive ProbArr where
  | two (m : List (List ℚ))
  | three (t : List (List (List ℚ)))
  | other (v : List ℚ)
  deriving DecidableEq, Repr

/-- An opaque fitted-model state. -/
abbrev Fitted := ℕ

/-- Modelled from the spec: the Pipeline Builder / search wrapper
(`Base_Model_Pipeline`, absent from `src/`) returns a fit-able pipeline
object.  `fit` may fail (a `FitFailure` propagates to the caller);
`predictProba` is `none` when the estimator has no such attribute
(the `AttributeError` branch of `_add_raw_preds`). -/
structure ModelObj where
  fit : Matrix → YArr → Except String Fitted
  predict : Fitted → Matrix → PredArr
  predictProba : Option (Fitted → Matrix → ProbArr)

/-- A metric/scorer: `metric(self.Model, X, y) -> scalar`. -/
abbrev Metric := Fitted → Matrix → YArr → ℚ

/-- `self.ps.target`: a single target key (a Python `str`) or a list of
target keys. -/
inductive TargetSpec where
  | single (k : Key)
  | multi (ks : List Key)
  deriving DecidableEq, Repr

/-- The target keys as a list (`conv_to_list(self.ps.target)`). -/
def targetKeysPy : TargetSpec → List Key
  | .single k => [k]
  | .multi ks => ks

/-- The per-`Model_Pipeline` configuration fixed at `__init__`. -/
structure Cfg where
  /-- `self.ps._final_subjects` (the externally declared filter). -/
  finalSubjects : Option (Finset Subj)
  /-- `self.ps.target`. -/
  target : TargetSpec
  /-- `conv_to_list(self.ps.metric)`. -/
  metricStrs : List String
  /-- Modelled from the spec: `proc_type_dep_str` (in the absent
  `ML_Helpers` module) translates each configured metric string to its
  problem-type-dependent canonical name, elementwise. -/
  strFix : String → String
  /-- Modelled from the spec: `get_metric` (in the absent `Metrics`
  module) resolves one metric string to a scoring callable. -/
  getMetric : String → Metric
  /-- `self.compute_train_score`. -/
  computeTrainScore : Bool
  /-- The fitted pipeline the Pipeline Builder returns for this fold
  (`self._get_final_model`; search wrapping is the builder's concern). -/
  model : ModelObj
  /-- `self.all_keys` as set from `Data_Scopes.set_all_keys`. -/
  allKeys : List Key
  /-- `conv_to_list(pipeline_params.feat_importances.obj)`. -/
  featImportancesObj : Option (List String)
  /-- `self.ps.random_state`. -/
  randomState : ℕ
  /-- Modelled from the spec: the seed-derived shuffle the CV module
  applies per repeat (repeat `i` reproducible from the seed and `i`). -/
  shuffle : ℕ → List Subj → List Subj

/-- `self._process_metrics`: the processed metric strings. -/
def cfgMetricStrs (cfg : Cfg) : List String :=
  cfg.metricStrs.map cfg.strFix

/-- `self.metrics = [get_metric(s) for s in metric_strs]`. -/
def cfgMetrics (cfg : Cfg) : List Metric :=
  (cfgMetricStrs cfg).map cfg.getMetric

/-- A feature-importance record (§4.4 of the spec); never constructed by
this engine (see `processFeatImportances`). -/
structure FeatImpRecord where
  name : String
  deriving DecidableEq, Repr

/-- `Model_Pipeline._process_feat_importances`: `conv_to_list` the passed
object, then — the real processing being commented out in the source —
return the empty list in the non-`None` branch as well as the `None`
branch. -/
def processFeatImportances (fi : Option (List String)) : List FeatImpRecord :=
  match fi with
  | some _ => []
  | none => []

/-- `self.feat_importances` as set at `__init__`. -/
def cfgFeatImps (cfg : Cfg) : List FeatImpRecord :=
  processFeatImportances cfg.featImportancesObj

/- ------------------------------------------------------------------ -/
/- Subject restriction and X/y extraction                              -/
/- ------------------------------------------------------------------ -/

/-- `Model_Pipeline._get_subjects_overlap`: intersect with
`self.ps._final_subjects` when set, else `set(subjects)`.
`np.array(list(overlap))` lists the resulting set in an unspecified
(hash) order; it is modelled as the distinct passed subjects in
first-occurrence order, filtered by the declared set when one is set —
the same set of subjects. -/
def getSubjectsOverlap (fin : Option (Finset Subj)) (subjects : List Subj) :
    List Subj :=
  match fin with
  | none => subjects.dedup
  | some f => subjects.dedup.filter (fun s => s ∈ f)

/-- The train-subject set `Test` actually uses (line
`train_subjects = self._get_subjects_overlap(train_subjects)`). -/
def testTrainSubjectsUsed (cfg : Cfg) (trainSubjects : List Subj) : List Subj :=
  getSubjectsOverlap cfg.finalSubjects trainSubjects

/-- The test-subject set `Test` actually uses (line
`test_subjects = self._get_subjects_overlap(test_subjects)`). -/
def testTestSubjectsUsed (cfg : Cfg) (testSubjects : List Subj) : List Subj :=
  getSubjectsOverlap cfg.finalSubjects testSubjects

/-- The train-subject set `Evaluate` actually uses (its first line). -/
def evaluateTrainSubjectsUsed (cfg : Cfg) (trainSubjects : List Subj) : List Subj :=
  getSubjectsOverlap cfg.finalSubjects trainSubjects

/-- `Model_Pipeline._get_X_y`: drop the target column(s) for `X`, read
the target column(s) for `y` (1-D for a `str` target, 2-D for a list). -/
def getXy (cfg : Cfg) (data : Frame) : Matrix × YArr :=
  let featCols := data.cols.filter (fun k => k ∉ targetKeysPy cfg.target)
  let X := data.index.map (fun s => featCols.map (fun k => valQ (data.cells k s)))
  let y : YArr :=
    match cfg.target with
    | .single k => .one (data.index.map (fun s => valQ (data.cells k s)))
    | .multi ks => .two (data.index.map (fun s => ks.map (fun k => valQ (data.cells k s))))
  (X, y)

/- ------------------------------------------------------------------ -/
/- Raw-prediction recording (_add_raw_preds)                           -/
/- ------------------------------------------------------------------ -/

/-- The flattened values of a target array (`np.unique` flattens). -/
def yFlat : YArr → List ℚ
  | .one v => v
  | .two m => m.flatten

/-- `np.unique`: the distinct values, in ascending order. -/
def npUnique (l : List ℚ) : List ℚ :=
  l.toFinset.sort (· ≤ ·)

/-- The class labels `_add_raw_preds` records for a fold
(`self.classes`): the distinct observed values of `y_test`, except that a
single observed class is replaced by the canonical binary `[0, 1]`. -/
def foldClasses (y : YArr) : List ℚ :=
  let u := npUnique (yFlat y)
  if u.length = 1 then [0, 1] else u

/-- The fold index argument of `Test` / `_add_raw_preds`: an integer
cross-validation fold, or the `'test'` sentinel of the final `Test` call. -/
inductive FoldInd where
  | num (i : ℕ)
  | test
  deriving DecidableEq, Repr

/-- The `(fold, repeat)` strings `_add_raw_preds` derives from the fold
index: `('test', '')` for the sentinel, else
`(str(fold_ind % n_splits + 1), str(fold_ind // n_splits + 1))`.
With `self.n_splits_` still `None` Python would raise a `TypeError`; the
engine always sets it before an integer fold, so that case is modelled as
`("", "")`. -/
def foldRepeatStrings (nSplits : Option ℕ) : FoldInd → String × String
  | .test => ("test", "")
  | .num i =>
    match nSplits with
    | some ns => (toString (i % ns + 1), toString (i / ns + 1))
    | none => ("", "")

/-- `'_'.join(self.ps.target[0].split('_')[:-1])`. -/
def tBaseKey (k : Key) : String :=
  String.intercalate "_" (k.splitOn "_").dropLast

/-- The ground-truth columns the tail of `_add_raw_preds` writes: one per
target key for a 2-D `y_test`; the derived `multiclass_` key for a 1-D
`y_test` with a list target; the target key itself otherwise.  (For the
2-D case the source indexes `self.ps.target[i]`, reachable only with a
list target since `_get_X_y` returns 1-D `y` for a `str` target.) -/
def groundTruthCols (cfg : Cfg) (y : YArr) : List Key :=
  match y, cfg.target with
  | .two _, _ => targetKeysPy cfg.target
  | .one _, .multi ks => ["multiclass_" ++ tBaseKey (ks.headD "")]
  | .one _, .single k => [k]

/-- The probability-column writes of `_add_raw_preds` (inside the
`try: self.Model.predict_proba ... except AttributeError: pass` block).
`np.shape(m)[1]` of a rectangular 2-D array is the length of its first
row; `val[1]` / `y[:, i]` row indexing is modelled with a `0` default on
short rows (numpy would raise there). -/
def probWrites (cfg : Cfg) (fitted : Fitted) (X : Matrix) (subjects : List Subj)
    (predColBase : String) (classes : List ℚ) (df : Frame) : Frame :=
  match cfg.model.predictProba with
  | none => df
  | some pp =>
    let predCol := predColBase ++ "_prob"
    match pp fitted X with
    | .three t =>
      (List.range t.length).foldl
        (fun d i =>
          writeColVec d (predCol ++ "_class_" ++ toString (classes.getD i 0))
            subjects ((t.getD i []).map (fun row => row.getD 1 0))) df
    | .two m =>
      (List.range (m.headD []).length).foldl
        (fun d i =>
          writeColVec d (predCol ++ "_class_" ++ toString (classes.getD i 0))
            subjects (m.map (fun row => row.getD i 0))) df
    | .other v => writeColVec df predCol subjects v

/-- The point-prediction writes of `_add_raw_preds`: one column per
output dimension for a 2-D prediction, a single column otherwise. -/
def predWrites (cfg : Cfg) (fitted : Fitted) (X : Matrix) (subjects : List Subj)
    (predCol : String) (classes : List ℚ) (df : Frame) : Frame :=
  match cfg.model.predict fitted X with
  | .two m =>
    (List.range (m.headD []).length).foldl
      (fun d i =>
        writeColVec d (predCol ++ "_class_" ++ toString (classes.getD i 0))
          subjects (m.map (fun row => row.getD i 0))) df
  | .one v => writeColVec df predCol subjects v

/-- The ground-truth copy at the tail of `_add_raw_preds`. -/
def truthWrites (cfg : Cfg) (y : YArr) (subjects : List Subj) (df : Frame) : Frame :=
  match y, cfg.target with
  | .two m, _ =>
    let ks := targetKeysPy cfg.target
    (List.range ks.length).foldl
      (fun d i => writeColVec d (ks.getD i "") subjects (m.map (fun row => row.getD i 0))) df
  | .one v, .multi ks => writeColVec df ("multiclass_" ++ tBaseKey (ks.headD "")) subjects v
  | .one v, .single k => writeColVec df k subjects v

/-- `Model_Pipeline._add_raw_preds`: record probability columns, point
predictions, the fold tag, and the ground truth into `self.raw_preds_df`,
in source order. -/
def addRawPreds (cfg : Cfg) (fitted : Fitted) (st : EngineState)
    (X : Matrix) (y : YArr) (subjects : List Subj) (evalType : String)
    (foldInd : FoldInd) : EngineState :=
  let fr := foldRepeatStrings st.nSplits foldInd
  let classes := foldClasses y
  let predCol := evalType ++ fr.2
  updateLedger st (fun df =>
    let df1 := probWrites cfg fitted X subjects predCol classes df
    let df2 := predWrites cfg fitted X subjects predCol classes df1
    let df3 := writeColScalar df2 (predCol ++ "_fold") subjects (.str fr.1)
    truthWrites cfg y subjects df3)

/- ------------------------------------------------------------------ -/
/- Scoring, fitting, and the per-fold lifecycle                        -/
/- ------------------------------------------------------------------ -/

/-- `Model_Pipeline._get_scores`: extract X/y from the evaluation data,
record raw predictions, then score each configured metric in order. -/
def getScores (cfg : Cfg) (fitted : Fitted) (st : EngineState)
    (evalData : Frame) (evalType : String) (foldInd : FoldInd) :
    List ℚ × EngineState :=
  let Xy := getXy cfg evalData
  let st' := addRawPreds cfg fitted st Xy.1 Xy.2 evalData.index evalType foldInd
  ((cfgMetrics cfg).map (fun m => m fitted Xy.1 Xy.2), st')

/-- The train-row slice `Test` computes: the data restricted to
`self.all_keys` and then to the overlapped train subjects. -/
def testTrainData (cfg : Cfg) (dataFrame : Frame) (trainSubjects : List Subj) :
    Frame :=
  rowSlice (colSlice dataFrame cfg.allKeys) (testTrainSubjectsUsed cfg trainSubjects)

/-- The test-row slice `Test` computes. -/
def testTestData (cfg : Cfg) (dataFrame : Frame) (testSubjects : List Subj) :
    Frame :=
  rowSlice (colSlice dataFrame cfg.allKeys) (testTestSubjectsUsed cfg testSubjects)

/-- The result of `self._train_model(train_data)` inside one `Test` call:
`self.Model.fit` on the train slice's X and y. -/
def testFitResult (cfg : Cfg) (dataFrame : Frame) (trainSubjects : List Subj) :
    Except String Fitted :=
  let Xy := getXy cfg (testTrainData cfg dataFrame trainSubjects)
  cfg.model.fit Xy.1 Xy.2

/-- `Model_Pipeline._proc_feat_importance`: with no configured feature
importances it returns immediately; the non-empty branch drives the
Feature Importance Aggregator, whose module (`Feat_Importances`) is
absent from `src/` — modelled from the spec as an opaque state action
supplied by the configuration.  The engine's list is provably always
empty (`processFeatImportances`), so that action is never taken. -/
def procFeatImportance (feats : List FeatImpRecord)
    (aggregator : EngineState → EngineState) (st : EngineState) : EngineState :=
  if feats.length > 0 then aggregator st else st

/-- The train-side score value of `Test`: `self._get_scores(...)` (a
1-D array) when `compute_train_score` is set, and the Python scalar `0`
otherwise. -/
inductive PyScoreVal where
  | arr (v : List ℚ)
  | intZero
  deriving DecidableEq, Repr

/-- The `fold_ind == 'test'` ledger initialization of `Test`: over the
concatenated restricted train and test subjects when train-side scoring
is requested, over the restricted test subjects only otherwise. -/
def testInitState (cfg : Cfg) (st : EngineState) (trO teO : List Subj) :
    EngineState :=
  if cfg.computeTrainScore then initRawPredsDf st (trO ++ teO)
  else initRawPredsDf st teO

/-- `Model_Pipeline.Test` (core of the per-fold lifecycle): restrict both
subject sets, slice the data to `self.all_keys`, initialize the ledger
when this is the final `'test'` call, slice train/test rows, fit, drive
feature importances, and score.  Returns the `(train_scores, scores)`
pair together with the mutated engine state; a fit failure propagates as
an error. -/
def TestH (cfg : Cfg) (st : EngineState) (dataRef : ℕ)
    (trainSubjects testSubjects : List Subj) (foldInd : FoldInd) :
    Except String (PyScoreVal × List ℚ) × EngineState :=
  let tr := testTrainSubjectsUsed cfg trainSubjects
  let te := testTestSubjectsUsed cfg testSubjects
  let st1 :=
    match foldInd with
    | .test => testInitState cfg st tr te
    | .num _ => st
  let trainData := testTrainData cfg (st.heap dataRef) trainSubjects
  let testData := testTestData cfg (st.heap dataRef) testSubjects
  match testFitResult cfg (st.heap dataRef) trainSubjects with
  | .error e => (.error e, st1)
  | .ok fitted =>
    let st2 := procFeatImportance (cfgFeatImps cfg) id st1
    let trainRes :=
      if cfg.computeTrainScore then
        let r := getScores cfg fitted st2 trainData "train_" foldInd
        (PyScoreVal.arr r.1, r.2)
      else (PyScoreVal.intZero, st2)
    let testRes := getScores cfg fitted trainRes.2 testData "" foldInd
    (.ok (trainRes.1, testRes.1), testRes.2)

/-- `Model_Pipeline.Test` called with the default `fold_ind='test'`: the
public entry point, returning the four-tuple
`(train_scores, scores, raw_preds_df, feat_importances)`. -/
def TestFull (cfg : Cfg) (st : EngineState) (dataRef : ℕ)
    (trainSubjects testSubjects : List Subj) :
    Except String (PyScoreVal × List ℚ × Frame × List FeatImpRecord) × EngineState :=
  match TestH cfg st dataRef trainSubjects testSubjects .test with
  | (.ok r, st') => (.ok (r.1, r.2, st'.heap st'.rawPredsRef, cfgFeatImps cfg), st')
  | (.error e, st') => (.error e, st')

/- ------------------------------------------------------------------ -/
/- The split generator (CV module, modelled from the spec)             -/
/- ------------------------------------------------------------------ -/

/-- `numpy.array_split`-style partition into `k` nearly-equal chunks
(earlier chunks take the remainder), used to model one k-fold repeat. -/
def arraySplit (l : List Subj) : ℕ → List (List Subj)
  | 0 => []
  | k + 1 =>
    let sz := (l.length + k) / (k + 1)
    l.take sz :: arraySplit (l.drop sz) k

/-- Modelled from the spec: `CV.repeated_k_fold` (the CV module is absent
from `src/`).  §4.1: per repeat, shuffle the subjects with a seed-derived
permutation and partition them into `n_splits` nearly-equal held-out
groups; fold `g` tests on group `g` and trains on the rest;
`ConfigurationError` if `n_splits` exceeds the subject count. -/
def repeatedKFold (shuffle : ℕ → List Subj → List Subj) (subjects : List Subj)
    (nRepeats nSplits randomState : ℕ) :
    Except String (List (List Subj × List Subj)) :=
  if subjects.length < nSplits then
    .error "ConfigurationError: n_splits exceeds the subject count"
  else
    .ok ((List.range nRepeats).flatMap (fun r =>
      let chunks := arraySplit (shuffle (randomState + r) subjects) nSplits
      (List.range nSplits).map (fun g =>
        ((chunks.eraseIdx g).flatten, chunks.getD g []))))

/-- Modelled from the spec: `CV.get_num_groups` — the number of distinct
group labels among the subjects. -/
def getNumGroups (subjects : List Subj) (vals : Subj → ℕ) : ℕ :=
  ((subjects.map vals).dedup).length

/-- Modelled from the spec: `CV.repeated_leave_one_group_out` (CV module
absent from `src/`).  §4.1: one fold per distinct group label, holding
out exactly that group; `ConfigurationError` with fewer than 2 distinct
labels. -/
def repeatedLeaveOneGroupOut (subjects : List Subj) (nRepeats : ℕ)
    (vals : Subj → ℕ) : Except String (List (List Subj × List Subj)) :=
  let groups := (subjects.map vals).dedup
  if groups.length < 2 then
    .error "ConfigurationError: fewer than 2 distinct group labels"
  else
    .ok ((List.range nRepeats).flatMap (fun _ =>
      groups.map (fun g =>
        (subjects.filter (fun s => vals s ≠ g),
         subjects.filter (fun s => vals s = g)))))

/-- `Model_Pipeline._get_eval_splits`: set `self.n_splits_` (the split
count in k-fold mode, the group count in leave-one-group-out mode) and
produce the split sequence. -/
def getEvalSplits (cfg : Cfg) (trainSubjects : List Subj) (splits nRepeats : ℕ)
    (splitsVals : Option (Subj → ℕ)) :
    Except String (ℕ × List (List Subj × List Subj)) :=
  match splitsVals with
  | none =>
    (repeatedKFold cfg.shuffle trainSubjects nRepeats splits cfg.randomState).map
      (fun sps => (splits, sps))
  | some vals =>
    (repeatedLeaveOneGroupOut trainSubjects nRepeats vals).map
      (fun sps => (getNumGroups trainSubjects vals, sps))

/- ------------------------------------------------------------------ -/
/- Evaluate                                                            -/
/- ------------------------------------------------------------------ -/

/-- The fold loop of `Evaluate`: run `Test` on each split with a
monotonically increasing integer fold index, accumulating the per-fold
train score values and test score vectors; the first error aborts the
loop. -/
def evalLoop (cfg : Cfg) (dataRef : ℕ) :
    List (List Subj × List Subj) → ℕ → EngineState →
    Except String (List PyScoreVal × List (List ℚ)) × EngineState
  | [], _, st => (.ok ([], []), st)
  | (trs, tes) :: rest, i, st =>
    match TestH cfg st dataRef trs tes (.num i) with
    | (.error e, st') => (.error e, st')
    | (.ok r, st') =>
      match evalLoop cfg dataRef rest (i + 1) st' with
      | (.error e, st'') => (.error e, st'')
      | (.ok acc, st'') => (.ok (r.1 :: acc.1, r.2 :: acc.2), st'')

/-- `self.n_splits_ = ...` in `_get_eval_splits`, as a state update. -/
def setNSplits (st : EngineState) (ns : ℕ) : EngineState :=
  { heap := st.heap, next := st.next, rawPredsRef := st.rawPredsRef,
    nSplits := some ns }

/-- `Model_Pipeline.Evaluate`: restrict the train subjects, initialize
the ledger over them, generate the eval splits, run the fold loop, and
return `(train_scores, test_scores, raw_preds_df, feat_importances)`
(`set_final_local` on an always-empty importance list is a no-op). -/
def EvaluateH (cfg : Cfg) (st : EngineState) (dataRef : ℕ)
    (trainSubjects : List Subj) (splits nRepeats : ℕ)
    (splitsVals : Option (Subj → ℕ)) :
    Except String
      (List PyScoreVal × List (List ℚ) × Frame × List FeatImpRecord) ×
    EngineState :=
  let tr := evaluateTrainSubjectsUsed cfg trainSubjects
  let st1 := initRawPredsDf st tr
  match getEvalSplits cfg tr splits nRepeats splitsVals with
  | .error e => (.error e, st1)
  | .ok (ns, sps) =>
    match evalLoop cfg dataRef sps 0 (setNSplits st1 ns) with
    | (.error e, st') => (.error e, st')
    | (.ok acc, st') =>
      (.ok (acc.1, acc.2, st'.heap st'.rawPredsRef, cfgFeatImps cfg), st')

/- ------------------------------------------------------------------ -/
/- Projection helpers and concrete fixtures                            -/
/- ------------------------------------------------------------------ -/

/-- The score components of an `Evaluate` result (dropping the frame, so
concrete results are decidable). -/
def evalScoresOf
    (x : Except String (List PyScoreVal × List (List ℚ) × Frame × List FeatImpRecord)) :
    Option (List PyScoreVal × List (List ℚ)) :=
  match x with
  | .ok r => some (r.1, r.2.1)
  | .error _ => none

/-- The score components of a `Test` result. -/
def testScoresOf
    (x : Except String (PyScoreVal × List ℚ × Frame × List FeatImpRecord)) :
    Option (PyScoreVal × List ℚ) :=
  match x with
  | .ok r => some (r.1, r.2.1)
  | .error _ => none

/-- The `importance_records` component of an engine result. -/
def featImpsOfTest
    (x : Except String (PyScoreVal × List ℚ × Frame × List FeatImpRecord)) :
    Option (List FeatImpRecord) :=
  match x with
  | .ok r => some r.2.2.2
  | .error _ => none

/-- The `importance_records` component of an `Evaluate` result. -/
def featImpsOfEval
    (x : Except String (List PyScoreVal × List (List ℚ) × Frame × List FeatImpRecord)) :
    Option (List FeatImpRecord) :=
  match x with
  | .ok r => some r.2.2.2
  | .error _ => none

/-- Whether a train-side score value is a 1-D array of `n` scores (the
shape the spec promises for the train side). -/
def isMetricsArr (n : ℕ) : Option PyScoreVal → Bool
  | some (.arr v) => v.length = n
  | _ => false

/-- The train-side component of a `Test` result. -/
def trainSideOf
    (x : Except String (PyScoreVal × List ℚ × Frame × List FeatImpRecord)) :
    Option PyScoreVal :=
  match x with
  | .ok r => some r.1
  | .error _ => none

/-- A concrete always-succeeding model for witnesses. -/
def modelW : ModelObj where
  fit := fun _ _ => .ok 0
  predict := fun _ X => .one (X.map (fun _ => 0))
  predictProba := none

/-- A concrete model whose `fit` always raises. -/
def modelFail : ModelObj where
  fit := fun _ _ => .error "fit failed"
  predict := fun _ _ => .one []
  predictProba := none

/-- A concrete configuration (train-side scoring enabled). -/
def cfgW : Cfg where
  finalSubjects := none
  target := .single "t"
  metricStrs := ["m"]
  strFix := id
  getMetric := fun _ => fun _ _ _ => 0
  computeTrainScore := true
  model := modelW
  allKeys := ["f", "t"]
  featImportancesObj := some ["base"]
  randomState := 0
  shuffle := fun _ l => l

/-- `cfgW` with train-side scoring disabled. -/
def cfgCx : Cfg := { cfgW with computeTrainScore := false }

/-- `cfgW` with the failing model. -/
def cfgFailW : Cfg := { cfgW with model := modelFail }

/-- A concrete data table over subjects `0..3`. -/
def dataW : Frame where
  index := [0, 1, 2, 3]
  cols := ["f", "t"]
  cells := fun k s =>
    if k = "f" then some (.num s)
    else if k = "t" then some (.num 1) else none

/-- A concrete initial engine state: the data table lives at heap
reference `0`; `self.raw_preds_df` does not yet point at live data. -/
def stW : EngineState where
  heap := fun r => if r = 0 then dataW else Frame.empty
  next := 1
  rawPredsRef := 7
  nSplits := none

/-- `stW` with an allocated two-row ledger at reference `1` and
`self.n_splits_` set, as after `_get_eval_splits` with 3 splits. -/
def stW2 : EngineState where
  heap := fun r =>
    if r = 0 then dataW
    else if r = 1 then ⟨[0, 1, 2, 3], [], fun _ _ => none⟩ else Frame.empty
  next := 2
  rawPredsRef := 1
  nSplits := some 3

/- ------------------------------------------------------------------ -/
/- Basic lemmas about frame writes                                     -/
/- ------------------------------------------------------------------ -/

theorem writeColVec_index (f : Frame) (col : Key) (subs : List Subj)
    (vals : List ℚ) : (writeColVec f col subs vals).index = f.index := rfl

theorem writeColScalar_index (f : Frame) (col : Key) (subs : List Subj)
    (v : Val) : (writeColScalar f col subs v).index = f.index := rfl

theorem writeColVec_cells_ne (f : Frame) (col : Key) (subs : List Subj)
    (vals : List ℚ) (c : Key) (s : Subj) (h : c ≠ col) :
    (writeColVec f col subs vals).cells c s = f.cells c s := by
  simp [writeColVec, h]

theorem writeColScalar_cells_ne (f : Frame) (col : Key) (subs : List Subj)
    (v : Val) (c : Key) (s : Subj) (h : c ≠ col) :
    (writeColScalar f col subs v).cells c s = f.cells c s := by
  simp [writeColScalar, h]

theorem writeColScalar_cells_mem (f : Frame) (col : Key) (subs : List Subj)
    (v : Val) (s : Subj) (hs : s ∈ subs) :
    (writeColScalar f col subs v).cells col s = some v := by
  simp [writeColScalar, hs]

/-- A fold of positional column writes leaves the index unchanged. -/
theorem foldl_writeColVec_index (g : ℕ → Key) (subs : List Subj)
    (vals : ℕ → List ℚ) :
    ∀ (l : List ℕ) (df : Frame),
      (l.foldl (fun d i => writeColVec d (g i) subs (vals i)) df).index = df.index
  | [], _ => rfl
  | i :: t, df =>
    foldl_writeColVec_index g subs vals t (writeColVec df (g i) subs (vals i))

/-- A fold of positional column writes does not touch other columns. -/
theorem foldl_writeColVec_cells_ne (g : ℕ → Key) (subs : List Subj)
    (vals : ℕ → List ℚ) (c : Key) (s : Subj) :
    ∀ (l : List ℕ) (df : Frame), (∀ i ∈ l, c ≠ g i) →
      (l.foldl (fun d i => writeColVec d (g i) subs (vals i)) df).cells c s
        = df.cells c s
  | [], _, _ => rfl
  | i :: t, df, h => by
    rw [List.foldl_cons, foldl_writeColVec_cells_ne g subs vals c s t _
        (fun j hj => h j (List.mem_cons_of_mem _ hj)),
      writeColVec_cells_ne _ _ _ _ _ _ (h i (List.mem_cons_self _ _))]

theorem probWrites_index (cfg : Cfg) (fitted : Fitted) (X : Matrix)
    (subjects : List Subj) (base : String) (classes : List ℚ) (df : Frame) :
    (probWrites cfg fitted X subjects base classes df).index = df.index := by
  cases hpp : cfg.model.predictProba with
  | none => simp [probWrites, hpp]
  | some pp =>
    cases hX : pp fitted X with
    | three t => simp [probWrites, hpp, hX, foldl_writeColVec_index]
    | two m => simp [probWrites, hpp, hX, foldl_writeColVec_index]
    | other v => simp [probWrites, hpp, hX, writeColVec_index]

theorem predWrites_index (cfg : Cfg) (fitted : Fitted) (X : Matrix)
    (subjects : List Subj) (predCol : String) (classes : List ℚ) (df : Frame) :
    (predWrites cfg fitted X subjects predCol classes df).index = df.index := by
  cases hX : cfg.model.predict fitted X with
  | two m => simp [predWrites, hX, foldl_writeColVec_index]
  | one v => simp [predWrites, hX, writeColVec_index]

theorem truthWrites_index (cfg : Cfg) (y : YArr) (subjects : List Subj)
    (df : Frame) : (truthWrites cfg y subjects df).index = df.index := by
  cases y with
  | two m => simp [truthWrites, foldl_writeColVec_index]
  | one v =>
    cases ht : cfg.target with
    | multi ks => simp [truthWrites, ht, writeColVec_index]
    | single k => simp [truthWrites, ht, writeColVec_index]

/-- The ground-truth writes do not touch any column outside
`groundTruthCols`. -/
theorem truthWrites_cells_notin (cfg : Cfg) (y : YArr) (subjects : List Subj)
    (df : Frame) (c : Key) (s : Subj)
    (h : ∀ t ∈ groundTruthCols cfg y, c ≠ t) :
    (truthWrites cfg y subjects df).cells c s = df.cells c s := by
  unfold truthWrites
  cases y with
  | two m =>
    refine foldl_writeColVec_cells_ne _ _ _ _ _ _ _ (fun i hi => ?_)
    refine h _ ?_
    simp only [groundTruthCols]
    have hlt : i < (targetKeysPy cfg.target).length := by
      simpa using List.mem_range.mp hi
    have := List.getD_eq_getElem (targetKeysPy cfg.target) "" hlt
    rw [this]
    exact List.getElem_mem hlt
  | one v =>
    cases htgt : cfg.target with
    | multi ks =>
      refine writeColVec_cells_ne _ _ _ _ _ _ (h _ ?_)
      simp [groundTruthCols, htgt]
    | single k =>
      refine writeColVec_cells_ne _ _ _ _ _ _ (h _ ?_)
      simp [groundTruthCols, htgt]

/- ------------------------------------------------------------------ -/
/- Ledger / heap preservation                                          -/
/- ------------------------------------------------------------------ -/

theorem updateLedger_rawPredsRef (st : EngineState) (g : Frame → Frame) :
    (updateLedger st g).rawPredsRef = st.rawPredsRef := rfl

theorem updateLedger_next (st : EngineState) (g : Frame → Frame) :
    (updateLedger st g).next = st.next := rfl

theorem updateLedger_nSplits (st : EngineState) (g : Frame → Frame) :
    (updateLedger st g).nSplits = st.nSplits := rfl

theorem updateLedger_heap_ne (st : EngineState) (g : Frame → Frame) (r : ℕ)
    (h : r ≠ st.rawPredsRef) : (updateLedger st g).heap r = st.heap r := by
  simp [updateLedger, h]

theorem updateLedger_heap_self (st : EngineState) (g : Frame → Frame) :
    (updateLedger st g).heap st.rawPredsRef = g (st.heap st.rawPredsRef) := by
  simp [updateLedger]

/-- What one engine step may do to the ledger heap: the frame references
are stable, frames other than the ledger are untouched, and the ledger's
subject index is untouched. -/
def PreservesLedger (st st' : EngineState) : Prop :=
  st'.rawPredsRef = st.rawPredsRef ∧ st'.next = st.next ∧
  st'.nSplits = st.nSplits ∧
  (∀ r, r ≠ st.rawPredsRef → st'.heap r = st.heap r) ∧
  (st'.heap st.rawPredsRef).index = (st.heap st.rawPredsRef).index

theorem preservesLedger_refl (st : EngineState) : PreservesLedger st st :=
  ⟨rfl, rfl, rfl, fun _ _ => rfl, rfl⟩

theorem preservesLedger_trans {s1 s2 s3 : EngineState}
    (h12 : PreservesLedger s1 s2) (h23 : PreservesLedger s2 s3) :
    PreservesLedger s1 s3 := by
  obtain ⟨a1, a2, a3, a4, a5⟩ := h12
  obtain ⟨b1, b2, b3, b4, b5⟩ := h23
  refine ⟨b1.trans a1, b2.trans a2, b3.trans a3, fun r hr => ?_, ?_⟩
  · rw [b4 r (a1 ▸ hr), a4 r hr]
  · rw [a1] at b5
    rw [b5, a5]

/-- With no configured importances `_proc_feat_importance` is the
identity on the engine state. -/
theorem procFeatImportance_id (feats : List FeatImpRecord) (st : EngineState) :
    procFeatImportance feats id st = st := by
  unfold procFeatImportance
  split <;> rfl

theorem addRawPreds_preserves (cfg : Cfg) (fitted : Fitted) (st : EngineState)
    (X : Matrix) (y : YArr) (subjects : List Subj) (evalType : String)
    (foldInd : FoldInd) :
    PreservesLedger st (addRawPreds cfg fitted st X y subjects evalType foldInd) := by
  simp only [addRawPreds]
  refine ⟨rfl, rfl, rfl, fun r hr => updateLedger_heap_ne st _ r hr, ?_⟩
  rw [updateLedger_heap_self]
  rw [truthWrites_index, writeColScalar_index, predWrites_index, probWrites_index]

theorem getScores_preserves (cfg : Cfg) (fitted : Fitted) (st : EngineState)
    (evalData : Frame) (evalType : String) (foldInd : FoldInd) :
    PreservesLedger st (getScores cfg fitted st evalData evalType foldInd).2 :=
  addRawPreds_preserves cfg fitted st _ _ _ evalType foldInd

/-- An `Evaluate`-driven `Test` call (integer fold index) only mutates
the ledger frame. -/
theorem TestH_num_preserves (cfg : Cfg) (st : EngineState) (dataRef : ℕ)
    (tr te : List Subj) (i : ℕ) :
    PreservesLedger st (TestH cfg st dataRef tr te (.num i)).2 := by
  cases h : testFitResult cfg (st.heap dataRef) tr with
  | error e =>
    simp only [TestH, h]
    exact preservesLedger_refl st
  | ok fitted =>
    cases hc : cfg.computeTrainScore with
    | false =>
      simp only [TestH, h, hc, procFeatImportance_id, Bool.false_eq_true,
        if_false]
      exact getScores_preserves cfg fitted st _ "" (.num i)
    | true =>
      simp only [TestH, h, hc, procFeatImportance_id, if_true]
      exact preservesLedger_trans
        (getScores_preserves cfg fitted st _ "train_" (.num i))
        (getScores_preserves cfg fitted _ _ "" (.num i))

/-- The fold loop of `Evaluate` only mutates the ledger frame. -/
theorem evalLoop_preserves (cfg : Cfg) (dataRef : ℕ) :
    ∀ (sps : List (List Subj × List Subj)) (i : ℕ) (st : EngineState),
      PreservesLedger st (evalLoop cfg dataRef sps i st).2
  | [], _, st => preservesLedger_refl st
  | (trs, tes) :: rest, i, st => by
    have h1 := TestH_num_preserves cfg st dataRef trs tes i
    rw [evalLoop]
    rcases hT : TestH cfg st dataRef trs tes (.num i) with ⟨res, st'⟩
    rw [hT] at h1
    cases res with
    | error e => exact h1
    | ok r =>
      have h2 := evalLoop_preserves cfg dataRef rest (i + 1) st'
      dsimp only
      rcases hL : evalLoop cfg dataRef rest (i + 1) st' with ⟨acc, st''⟩
      rw [hL] at h2
      cases acc with
      | error e => exact preservesLedger_trans h1 h2
      | ok a => exact preservesLedger_trans h1 h2

theorem initRawPredsDf_heap_ne (st : EngineState) (subs : List Subj) (r : ℕ)
    (h : r ≠ st.next) : (initRawPredsDf st subs).heap r = st.heap r := by
  simp [initRawPredsDf, h]

theorem initRawPredsDf_rawPredsRef (st : EngineState) (subs : List Subj) :
    (initRawPredsDf st subs).rawPredsRef = st.next := rfl

theorem initRawPredsDf_ledger (st : EngineState) (subs : List Subj) :
    (initRawPredsDf st subs).heap (initRawPredsDf st subs).rawPredsRef
      = ⟨subs, [], fun _ _ => none⟩ := by
  simp [initRawPredsDf]

theorem initRawPredsDf_ledger_index (st : EngineState) (subs : List Subj) :
    ((initRawPredsDf st subs).heap (initRawPredsDf st subs).rawPredsRef).index
      = subs := by
  rw [initRawPredsDf_ledger]

theorem setNSplits_ledger_index (st : EngineState) (ns : ℕ) :
    ((setNSplits st ns).heap (setNSplits st ns).rawPredsRef).index
      = (st.heap st.rawPredsRef).index := rfl

theorem testInitState_ledger_index (cfg : Cfg) (st : EngineState)
    (trO teO : List Subj) :
    ((testInitState cfg st trO teO).heap
        (testInitState cfg st trO teO).rawPredsRef).index
      = if cfg.computeTrainScore then trO ++ teO else teO := by
  unfold testInitState
  cases cfg.computeTrainScore with
  | false => simp [initRawPredsDf_ledger]
  | true => simp [initRawPredsDf_ledger]

theorem testInitState_heap_ne (cfg : Cfg) (st : EngineState)
    (trO teO : List Subj) (r : ℕ) (h : r ≠ st.next) :
    (testInitState cfg st trO teO).heap r = st.heap r := by
  unfold testInitState
  cases cfg.computeTrainScore with
  | false => simp [initRawPredsDf_heap_ne st _ r h]
  | true => simp [initRawPredsDf_heap_ne st _ r h]

theorem testInitState_rawPredsRef (cfg : Cfg) (st : EngineState)
    (trO teO : List Subj) :
    (testInitState cfg st trO teO).rawPredsRef = st.next := by
  unfold testInitState
  cases cfg.computeTrainScore with
  | false => rfl
  | true => rfl

/-- A final `Test` call (sentinel fold index) only mutates the freshly
allocated ledger frame, relative to the post-initialization state. -/
theorem TestH_test_preserves (cfg : Cfg) (st : EngineState) (dataRef : ℕ)
    (tr te : List Subj) :
    PreservesLedger
      (testInitState cfg st (testTrainSubjectsUsed cfg tr)
        (testTestSubjectsUsed cfg te))
      (TestH cfg st dataRef tr te .test).2 := by
  cases h : testFitResult cfg (st.heap dataRef) tr with
  | error e =>
    simp only [TestH, h]
    exact preservesLedger_refl _
  | ok fitted =>
    cases hc : cfg.computeTrainScore with
    | false =>
      simp only [TestH, h, hc, procFeatImportance_id, Bool.false_eq_true,
        if_false]
      exact getScores_preserves cfg fitted _ _ "" .test
    | true =>
      simp only [TestH, h, hc, procFeatImportance_id, if_true]
      exact preservesLedger_trans
        (getScores_preserves cfg fitted _ _ "train_" .test)
        (getScores_preserves cfg fitted _ _ "" .test)

/- ------------------------------------------------------------------ -/
/- Claim theorems                                                      -/
/- ------------------------------------------------------------------ -/

/-- C1: for every call to `Evaluate` or `Test`, the subject sets actually
used are the restriction of the passed subjects — with the final-subject
filter set, exactly the intersection of the passed subjects with the
filter (for `Test` independently on the train and test side); with the
filter unset, all provided subjects unchanged.  The last two conjuncts
record that the rows `Test` slices are indexed by exactly these
restricted sets. -/
theorem claim_subjects_restriction (cfg : Cfg) (f : Finset Subj)
    (subs trs tes : List Subj) (dataFrame : Frame) :
    (testTrainSubjectsUsed { cfg with finalSubjects := none } subs).toFinset
        = subs.toFinset
    ∧ (testTrainSubjectsUsed { cfg with finalSubjects := some f } subs).toFinset
        = f ∩ subs.toFinset
    ∧ (testTestSubjectsUsed { cfg with finalSubjects := none } subs).toFinset
        = subs.toFinset
    ∧ (testTestSubjectsUsed { cfg with finalSubjects := some f } subs).toFinset
        = f ∩ subs.toFinset
    ∧ (evaluateTrainSubjectsUsed { cfg with finalSubjects := none } subs).toFinset
        = subs.toFinset
    ∧ (evaluateTrainSubjectsUsed { cfg with finalSubjects := some f } subs).toFinset
        = f ∩ subs.toFinset
    ∧ (testTrainData cfg dataFrame trs).index = testTrainSubjectsUsed cfg trs
    ∧ (testTestData cfg dataFrame tes).index = testTestSubjectsUsed cfg tes := by
  refine ⟨?_, ?_, ?_, ?_, ?_, ?_, rfl, rfl⟩ <;>
  · apply Finset.ext
    intro a
    simp [testTrainSubjectsUsed, testTestSubjectsUsed,
      evaluateTrainSubjectsUsed, getSubjectsOverlap, And.comm]

/-- C3: for a fold whose test split contains exactly one observed class,
the recorded class labels (`self.classes` in `_add_raw_preds`, used for
all prediction-column naming) are the canonical `[0, 1]` rather than the
single-element observed set. -/
theorem claim_one_class_binary (y : YArr) (c : ℚ)
    (h1 : yFlat y ≠ []) (h2 : ∀ v ∈ yFlat y, v = c) :
    foldClasses y = [0, 1] := by
  have hmem : c ∈ yFlat y := by
    obtain ⟨a, ha⟩ := List.exists_mem_of_ne_nil (yFlat y) h1
    exact h2 a ha ▸ ha
  have hset : (yFlat y).toFinset = {c} := by
    apply Finset.ext
    intro v
    simp only [List.mem_toFinset, Finset.mem_singleton]
    exact ⟨h2 v, fun hv => hv ▸ hmem⟩
  unfold foldClasses npUnique
  rw [hset, Finset.sort_singleton]
  simp

/-- Witness for C3: a concrete one-class fold. -/
theorem claim_one_class_binary_witness :
    yFlat (YArr.one [(5 : ℚ), 5]) ≠ [] ∧ foldClasses (YArr.one [(5 : ℚ), 5]) = [0, 1] :=
  ⟨by decide, claim_one_class_binary (YArr.one [(5 : ℚ), 5]) 5 (by decide) (by decide)⟩

/-- C5: for every fold and both evaluation sides, `_get_scores` produces
one scalar per configured metric, in the configured metric-list order,
so its length equals the number of configured metrics. -/
theorem claim_score_vector_length (cfg : Cfg) (fitted : Fitted)
    (st : EngineState) (evalData : Frame) (evalType : String)
    (foldInd : FoldInd) :
    (getScores cfg fitted st evalData evalType foldInd).1
      = (cfgMetrics cfg).map
          (fun m => m fitted (getXy cfg evalData).1 (getXy cfg evalData).2)
    ∧ (getScores cfg fitted st evalData evalType foldInd).1.length
        = cfg.metricStrs.length := by
  constructor
  · rfl
  · simp [getScores, cfgMetrics, cfgMetricStrs]

/-- C10: for every configuration, `_process_feat_importances` reduces the
feature-importance specification to the empty collection, so the
`importance_records` component returned by `Evaluate` and `Test` is
always the empty list. -/
theorem claim_feat_importances_empty (fi : Option (List String)) (cfg : Cfg)
    (st : EngineState) (dataRef : ℕ) (tr te subs : List Subj)
    (splits nRepeats : ℕ) (sv : Option (Subj → ℕ)) :
    processFeatImportances fi = []
    ∧ (featImpsOfTest (TestFull cfg st dataRef tr te).1 = none
        ∨ featImpsOfTest (TestFull cfg st dataRef tr te).1 = some [])
    ∧ (featImpsOfEval (EvaluateH cfg st dataRef subs splits nRepeats sv).1 = none
        ∨ featImpsOfEval (EvaluateH cfg st dataRef subs splits nRepeats sv).1
            = some []) := by
  have hc : cfgFeatImps cfg = [] := by
    unfold cfgFeatImps processFeatImportances
    cases cfg.featImportancesObj <;> rfl
  refine ⟨?_, ?_, ?_⟩
  · cases fi <;> rfl
  · rw [TestFull]
    rcases hT : TestH cfg st dataRef tr te .test with ⟨res, st'⟩
    cases res with
    | error e => left; rfl
    | ok r => right; simp [featImpsOfTest, hc]
  · simp only [EvaluateH]
    rcases hS : getEvalSplits cfg
        (evaluateTrainSubjectsUsed cfg subs) splits nRepeats sv with e | ⟨ns, sps⟩
    · left; rfl
    · dsimp only
      rcases hL : evalLoop cfg dataRef sps 0
          (setNSplits (initRawPredsDf st (evaluateTrainSubjectsUsed cfg subs)) ns)
          with ⟨acc, st'⟩
      cases acc with
      | error e => left; rfl
      | ok a => right; simp [featImpsOfEval, hc]

/-- C4: the Raw Prediction Ledger of a final `Test` call is initialized
(and stays) indexed over the concatenation — as a set, the union — of the
restricted train and test subjects when train-side scoring is requested,
and over the restricted test subjects only otherwise; for every
`Evaluate` call it is indexed over the restricted train subjects. -/
theorem claim_ledger_init_index (cfg : Cfg) (st : EngineState) (dataRef : ℕ)
    (tr te subs : List Subj) (splits nRepeats : ℕ)
    (sv : Option (Subj → ℕ)) :
    (((TestH cfg st dataRef tr te .test).2.heap
        (TestH cfg st dataRef tr te .test).2.rawPredsRef).index
      = if cfg.computeTrainScore then
          testTrainSubjectsUsed cfg tr ++ testTestSubjectsUsed cfg te
        else testTestSubjectsUsed cfg te)
    ∧ (((TestH cfg st dataRef tr te .test).2.heap
          (TestH cfg st dataRef tr te .test).2.rawPredsRef).index.toFinset
        = if cfg.computeTrainScore then
            (testTrainSubjectsUsed cfg tr).toFinset
              ∪ (testTestSubjectsUsed cfg te).toFinset
          else (testTestSubjectsUsed cfg te).toFinset)
    ∧ ((EvaluateH cfg st dataRef subs splits nRepeats sv).2.heap
          (EvaluateH cfg st dataRef subs splits nRepeats sv).2.rawPredsRef).index
        = evaluateTrainSubjectsUsed cfg subs := by
  have hT := TestH_test_preserves cfg st dataRef tr te
  obtain ⟨hr, -, -, -, hix⟩ := hT
  have h1 : ((TestH cfg st dataRef tr te .test).2.heap
      (TestH cfg st dataRef tr te .test).2.rawPredsRef).index
      = if cfg.computeTrainScore then
          testTrainSubjectsUsed cfg tr ++ testTestSubjectsUsed cfg te
        else testTestSubjectsUsed cfg te := by
    rw [hr, hix, testInitState_ledger_index]
  refine ⟨h1, ?_, ?_⟩
  · rw [h1]
    cases cfg.computeTrainScore with
    | false => simp
    | true => simp [List.toFinset_append]
  · simp only [EvaluateH]
    rcases hS : getEvalSplits cfg
        (evaluateTrainSubjectsUsed cfg subs) splits nRepeats sv with e | ⟨ns, sps⟩
    · dsimp only
      exact initRawPredsDf_ledger_index st _
    · dsimp only
      have hL := evalLoop_preserves cfg dataRef sps 0
        (setNSplits (initRawPredsDf st (evaluateTrainSubjectsUsed cfg subs)) ns)
      rcases hLe : evalLoop cfg dataRef sps 0
          (setNSplits (initRawPredsDf st (evaluateTrainSubjectsUsed cfg subs)) ns)
          with ⟨acc, st'⟩
      rw [hLe] at hL
      obtain ⟨lr, -, -, -, lix⟩ := hL
      cases acc with
      | error e =>
        dsimp only at lr lix ⊢
        rw [lr, lix, setNSplits_ledger_index]
        exact initRawPredsDf_ledger_index st _
      | ok a =>
        dsimp only at lr lix ⊢
        rw [lr, lix, setNSplits_ledger_index]
        exact initRawPredsDf_ledger_index st _

/-- C9: for every `Evaluate` or `Test` call, the caller's Data Table is
read-only: the frame at the data reference — all its feature, strat, and
target cells included — is unchanged after the call.  The hypotheses say
the data reference is a live allocation distinct from the engine's ledger
reference. -/
theorem claim_data_read_only (cfg : Cfg) (st : EngineState) (dataRef : ℕ)
    (tr te subs : List Subj) (foldInd : FoldInd) (splits nRepeats : ℕ)
    (sv : Option (Subj → ℕ))
    (h1 : dataRef < st.next) (h2 : dataRef ≠ st.rawPredsRef) :
    (TestH cfg st dataRef tr te foldInd).2.heap dataRef = st.heap dataRef
    ∧ (EvaluateH cfg st dataRef subs splits nRepeats sv).2.heap dataRef
        = st.heap dataRef := by
  have hne : dataRef ≠ st.next := Nat.ne_of_lt h1
  constructor
  · cases foldInd with
    | num i =>
      obtain ⟨-, -, -, h4, -⟩ := TestH_num_preserves cfg st dataRef tr te i
      exact h4 dataRef h2
    | test =>
      obtain ⟨-, -, -, h4, -⟩ := TestH_test_preserves cfg st dataRef tr te
      rw [h4 dataRef (by rw [testInitState_rawPredsRef]; exact hne)]
      exact testInitState_heap_ne cfg st _ _ dataRef hne
  · simp only [EvaluateH]
    rcases hS : getEvalSplits cfg
        (evaluateTrainSubjectsUsed cfg subs) splits nRepeats sv with e | ⟨ns, sps⟩
    · dsimp only
      exact initRawPredsDf_heap_ne st _ dataRef hne
    · dsimp only
      have hL := evalLoop_preserves cfg dataRef sps 0
        (setNSplits (initRawPredsDf st (evaluateTrainSubjectsUsed cfg subs)) ns)
      rcases hLe : evalLoop cfg dataRef sps 0
          (setNSplits (initRawPredsDf st (evaluateTrainSubjectsUsed cfg subs)) ns)
          with ⟨acc, st'⟩
      rw [hLe] at hL
      obtain ⟨-, -, -, l4, -⟩ := hL
      have hstep : (setNSplits (initRawPredsDf st
          (evaluateTrainSubjectsUsed cfg subs)) ns).heap dataRef
          = st.heap dataRef := initRawPredsDf_heap_ne st _ dataRef hne
      have href : dataRef ≠ (setNSplits (initRawPredsDf st
          (evaluateTrainSubjectsUsed cfg subs)) ns).rawPredsRef := hne
      cases acc with
      | error e =>
        dsimp only at l4 ⊢
        rw [l4 dataRef href, hstep]
      | ok a =>
        dsimp only at l4 ⊢
        rw [l4 dataRef href, hstep]

/-- Witness for C9: on a concrete call, the concrete data table at
reference 0 is untouched by both `Test` and `Evaluate`. -/
theorem claim_data_read_only_witness :
    (TestH cfgW stW 0 [0, 1] [2, 3] .test).2.heap 0 = stW.heap 0
    ∧ (EvaluateH cfgW stW 0 [0, 1, 2, 3] 2 2 none).2.heap 0 = stW.heap 0 :=
  claim_data_read_only cfgW stW 0 [0, 1] [2, 3] [0, 1, 2, 3] .test 2 2 none
    (by decide) (by decide)

/-- A fit failure makes `Test` return exactly that error. -/
theorem TestH_fit_error (cfg : Cfg) (st : EngineState) (dataRef : ℕ)
    (trs tes : List Subj) (foldInd : FoldInd) (e : String)
    (h : testFitResult cfg (st.heap dataRef) trs = .error e) :
    (TestH cfg st dataRef trs tes foldInd).1 = .error e := by
  simp only [TestH, h]

/-- A successful fit makes an `Evaluate`-driven `Test` call succeed. -/
theorem TestH_num_ok (cfg : Cfg) (st : EngineState) (dataRef : ℕ)
    (trs tes : List Subj) (i : ℕ) (fitted : Fitted)
    (h : testFitResult cfg (st.heap dataRef) trs = .ok fitted) :
    ∃ r, (TestH cfg st dataRef trs tes (.num i)).1 = .ok r := by
  cases hc : cfg.computeTrainScore with
  | false =>
    simp only [TestH, h, hc, procFeatImportance_id, Bool.false_eq_true, if_false]
    exact ⟨_, rfl⟩
  | true =>
    simp only [TestH, h, hc, procFeatImportance_id, if_true]
    exact ⟨_, rfl⟩

/-- If every fold before some split fits fine and that split's fit fails,
the fold loop returns exactly that failure. -/
theorem evalLoop_fit_fail (cfg : Cfg) (dataRef : ℕ) (trs tes : List Subj)
    (rest : List (List Subj × List Subj)) (e : String) :
    ∀ (pre : List (List Subj × List Subj)) (i : ℕ) (st : EngineState)
      (dframe : Frame),
      st.heap dataRef = dframe →
      dataRef ≠ st.rawPredsRef →
      (∀ p ∈ pre, (testFitResult cfg dframe p.1).isOk = true) →
      testFitResult cfg dframe trs = .error e →
      (evalLoop cfg dataRef (pre ++ (trs, tes) :: rest) i st).1 = .error e
  | [], i, st, dframe, hdf, _, _, hfail => by
    rw [List.nil_append, evalLoop]
    have herr := TestH_fit_error cfg st dataRef trs tes (.num i) e (by rw [hdf]; exact hfail)
    rcases hT : TestH cfg st dataRef trs tes (.num i) with ⟨res, st'⟩
    rw [hT] at herr
    dsimp only at herr
    subst herr
    rfl
  | p :: ps, i, st, dframe, hdf, href, hpre, hfail => by
    obtain ⟨ptr, pte⟩ := p
    rw [List.cons_append, evalLoop]
    have hok : (testFitResult cfg dframe ptr).isOk = true :=
      hpre (ptr, pte) (List.mem_cons_self _ _)
    cases hft : testFitResult cfg (st.heap dataRef) ptr with
    | error e' =>
      rw [hdf] at hft
      rw [hft] at hok
      exact absurd hok (by simp [Except.isOk, Except.toBool])
    | ok fitted =>
      obtain ⟨r, hr⟩ := TestH_num_ok cfg st dataRef ptr pte i fitted hft
      have hpd := TestH_num_preserves cfg st dataRef ptr pte i
      rcases hT : TestH cfg st dataRef ptr pte (.num i) with ⟨res, st'⟩
      rw [hT] at hr hpd
      dsimp only at hr
      subst hr
      dsimp only
      obtain ⟨p1, -, -, p4, -⟩ := hpd
      have hdf' : st'.heap dataRef = dframe := by
        rw [p4 dataRef href, hdf]
      have href' : dataRef ≠ st'.rawPredsRef := by
        rw [p1]; exact href
      have ih := evalLoop_fit_fail cfg dataRef trs tes rest e ps (i + 1) st'
        dframe hdf' href'
        (fun q hq => hpre q (List.mem_cons_of_mem _ hq)) hfail
      rcases hL : evalLoop cfg dataRef (ps ++ (trs, tes) :: rest) (i + 1) st'
          with ⟨acc, st''⟩
      rw [hL] at ih
      dsimp only at ih
      subst ih
      rfl

/-- C8: if the underlying model's fit raises in any fold (here: the first
failing fold, all earlier folds fitting fine), the whole `Evaluate` call
— and likewise the single-fold `Test` call — returns that error, with no
partial score array (the error constructor of the result carries no
scores). -/
theorem claim_fit_failure_aborts (cfg : Cfg) (st : EngineState) (dataRef : ℕ)
    (trs tes subs : List Subj) (foldInd : FoldInd) (splits nRepeats ns : ℕ)
    (sv : Option (Subj → ℕ)) (pre rest : List (List Subj × List Subj))
    (e : String)
    (hsp : getEvalSplits cfg (evaluateTrainSubjectsUsed cfg subs) splits
        nRepeats sv = .ok (ns, pre ++ (trs, tes) :: rest))
    (hpre : ∀ p ∈ pre, (testFitResult cfg (st.heap dataRef) p.1).isOk = true)
    (hfail : testFitResult cfg (st.heap dataRef) trs = .error e)
    (h1 : dataRef < st.next) :
    (TestH cfg st dataRef trs tes foldInd).1 = .error e
    ∧ (EvaluateH cfg st dataRef subs splits nRepeats sv).1 = .error e := by
  have hne : dataRef ≠ st.next := Nat.ne_of_lt h1
  refine ⟨TestH_fit_error cfg st dataRef trs tes foldInd e hfail, ?_⟩
  simp only [EvaluateH]
  rw [hsp]
  dsimp only
  have hdf : (setNSplits (initRawPredsDf st
      (evaluateTrainSubjectsUsed cfg subs)) ns).heap dataRef = st.heap dataRef :=
    initRawPredsDf_heap_ne st _ dataRef hne
  have hloop := evalLoop_fit_fail cfg dataRef trs tes rest e pre 0
    (setNSplits (initRawPredsDf st (evaluateTrainSubjectsUsed cfg subs)) ns)
    (st.heap dataRef) hdf hne hpre hfail
  rcases hL : evalLoop cfg dataRef (pre ++ (trs, tes) :: rest) 0
      (setNSplits (initRawPredsDf st (evaluateTrainSubjectsUsed cfg subs)) ns)
      with ⟨acc, st'⟩
  rw [hL] at hloop
  dsimp only at hloop
  subst hloop
  rfl

/-- Witness for C8: a model whose fit always raises makes the concrete
`Test` and `Evaluate` calls return that error. -/
theorem claim_fit_failure_aborts_witness :
    (TestH cfgFailW stW 0 [1] [0] .test).1 = .error "fit failed"
    ∧ (EvaluateH cfgFailW stW 0 [0, 1] 2 1 none).1 = .error "fit failed" :=
  claim_fit_failure_aborts cfgFailW stW 0 [1] [0] [0, 1] .test 2 1 2 none
    [] [([0], [1])] "fit failed" (by rfl) (by simp) (by rfl) (by decide)

theorem getScores_length (cfg : Cfg) (fitted : Fitted) (st : EngineState)
    (evalData : Frame) (evalType : String) (foldInd : FoldInd) :
    (getScores cfg fitted st evalData evalType foldInd).1.length
      = cfg.metricStrs.length := by
  simp [getScores, cfgMetrics, cfgMetricStrs]

/-- The score shapes of one successful `Test` call. -/
theorem TestH_ok_scores (cfg : Cfg) (st : EngineState) (dataRef : ℕ)
    (trs tes : List Subj) (foldInd : FoldInd) (r : PyScoreVal × List ℚ)
    (h : (TestH cfg st dataRef trs tes foldInd).1 = .ok r) :
    r.2.length = cfg.metricStrs.length
    ∧ (cfg.computeTrainScore = true →
        ∃ v, r.1 = .arr v ∧ v.length = cfg.metricStrs.length)
    ∧ (cfg.computeTrainScore = false → r.1 = .intZero) := by
  cases hf : testFitResult cfg (st.heap dataRef) trs with
  | error e =>
    rw [TestH_fit_error cfg st dataRef trs tes foldInd e hf] at h
    exact absurd h (by simp)
  | ok fitted =>
    cases hc : cfg.computeTrainScore with
    | false =>
      simp only [TestH, hf, hc, procFeatImportance_id, Bool.false_eq_true,
        if_false, Except.ok.injEq] at h
      subst h
      dsimp only
      refine ⟨getScores_length _ _ _ _ _ _, ?_, ?_⟩
      · intro hct; exact absurd hct (by simp)
      · intro _; rfl
    | true =>
      simp only [TestH, hf, hc, procFeatImportance_id, if_true,
        Except.ok.injEq] at h
      subst h
      dsimp only
      refine ⟨getScores_length _ _ _ _ _ _, ?_, ?_⟩
      · intro _
        exact ⟨_, rfl, getScores_length _ _ _ _ _ _⟩
      · intro hct; exact absurd hct (by simp)

/-- The accumulated score shapes of a successful fold loop. -/
theorem evalLoop_ok_shapes (cfg : Cfg) (dataRef : ℕ) :
    ∀ (sps : List (List Subj × List Subj)) (i : ℕ) (st : EngineState)
      (acc : List PyScoreVal × List (List ℚ)) (st' : EngineState),
      evalLoop cfg dataRef sps i st = (.ok acc, st') →
      acc.1.length = sps.length ∧ acc.2.length = sps.length
      ∧ (∀ v ∈ acc.2, v.length = cfg.metricStrs.length)
      ∧ (cfg.computeTrainScore = true →
          ∀ x ∈ acc.1, ∃ v, x = .arr v ∧ v.length = cfg.metricStrs.length)
      ∧ (cfg.computeTrainScore = false → ∀ x ∈ acc.1, x = .intZero)
  | [], i, st, acc, st', h => by
    rw [evalLoop] at h
    simp only [Prod.mk.injEq, Except.ok.injEq] at h
    obtain ⟨ha, -⟩ := h
    subst ha
    exact ⟨rfl, rfl, by simp, fun _ => by simp, fun _ => by simp⟩
  | (trs, tes) :: rest, i, st, acc, st', h => by
    rw [evalLoop] at h
    rcases hT : TestH cfg st dataRef trs tes (.num i) with ⟨res, stT⟩
    rw [hT] at h
    cases res with
    | error e => exact absurd h (by simp)
    | ok r =>
      dsimp only at h
      rcases hL : evalLoop cfg dataRef rest (i + 1) stT with ⟨acc2, stL⟩
      rw [hL] at h
      cases acc2 with
      | error e => exact absurd h (by simp)
      | ok a =>
        simp only [Prod.mk.injEq, Except.ok.injEq] at h
        obtain ⟨ha, -⟩ := h
        subst ha
        have hr := TestH_ok_scores cfg st dataRef trs tes (.num i) r
          (by rw [hT])
        have ih := evalLoop_ok_shapes cfg dataRef rest (i + 1) stT a stL hL
        obtain ⟨hr1, hr2, hr3⟩ := hr
        obtain ⟨i1, i2, i3, i4, i5⟩ := ih
        refine ⟨by simp [i1], by simp [i2], ?_, ?_, ?_⟩
        · intro v hv
          rcases List.mem_cons.mp hv with hv | hv
          · exact hv ▸ hr1
          · exact i3 v hv
        · intro hct x hx
          rcases List.mem_cons.mp hx with hx | hx
          · exact hx ▸ hr2 hct
          · exact i4 hct x hx
        · intro hct x hx
          rcases List.mem_cons.mp hx with hx | hx
          · exact hx ▸ hr3 hct
          · exact i5 hct x hx

/-- A `flatMap` whose pieces all have length `k` has length
`l.length * k`. -/
theorem flatMap_const_length {α β : Type} (f : α → List β) (k : ℕ) :
    ∀ (l : List α), (∀ a ∈ l, (f a).length = k) →
      (l.flatMap f).length = l.length * k
  | [], _ => by simp
  | a :: t, h => by
    rw [List.flatMap_cons, List.length_append,
      flatMap_const_length f k t (fun b hb => h b (List.mem_cons_of_mem _ hb)),
      h a (List.mem_cons_self _ _), List.length_cons]
    ring

/-- The split sequence `_get_eval_splits` produces has exactly
`n_repeats * n_splits_` folds (in both k-fold and leave-one-group-out
modes). -/
theorem getEvalSplits_length (cfg : Cfg) (tr : List Subj)
    (splits nRepeats : ℕ) (sv : Option (Subj → ℕ)) (ns : ℕ)
    (sps : List (List Subj × List Subj))
    (h : getEvalSplits cfg tr splits nRepeats sv = .ok (ns, sps)) :
    sps.length = nRepeats * ns := by
  cases sv with
  | none =>
    simp only [getEvalSplits, repeatedKFold] at h
    by_cases hc : tr.length < splits
    · rw [if_pos hc] at h
      exact absurd h (by simp [Except.map])
    · rw [if_neg hc] at h
      simp only [Except.map, Prod.mk.injEq, Except.ok.injEq] at h
      obtain ⟨hns, hsps⟩ := h
      rw [← hsps,
        flatMap_const_length _ splits _ (fun a _ => by simp),
        List.length_range, hns]
  | some vals =>
    simp only [getEvalSplits, repeatedLeaveOneGroupOut] at h
    by_cases hc : ((tr.map vals).dedup).length < 2
    · rw [if_pos hc] at h
      exact absurd h (by simp [Except.map])
    · rw [if_neg hc] at h
      simp only [Except.map, Prod.mk.injEq, Except.ok.injEq] at h
      obtain ⟨hns, hsps⟩ := h
      rw [← hsps,
        flatMap_const_length _ ((tr.map vals).dedup).length _
          (fun a _ => by simp),
        List.length_range, ← hns]
      rfl

/-- Counterexample to C2 as stated: with train-side scoring disabled, the
train-side value `Test` returns is the Python scalar `0`, not a
`[n_metrics]` score array. -/
theorem claim_fixed_shapes_counterexample :
    cfgCx.computeTrainScore = false
    ∧ cfgCx.metricStrs.length = 1
    ∧ trainSideOf (TestFull cfgCx stW 0 [0, 1] [2, 3]).1 = some PyScoreVal.intZero
    ∧ isMetricsArr 1 (trainSideOf (TestFull cfgCx stW 0 [0, 1] [2, 3]).1) = false := by
  refine ⟨rfl, rfl, rfl, rfl⟩

/-- C2 as amended: the test-side score arrays always have the stated
fixed shapes (`[n_repeats × n_splits_][n_metrics]` for `Evaluate`,
`[n_metrics]` for `Test`), and the train-side arrays have those shapes
when train-side scoring is enabled; when it is disabled, each train-side
entry is the Python scalar `0` instead of a `[n_metrics]` array. -/
theorem claim_score_array_shapes (cfg : Cfg) (st : EngineState) (dataRef : ℕ)
    (tr te subs : List Subj) (splits nRepeats ns : ℕ)
    (sv : Option (Subj → ℕ)) (sps : List (List Subj × List Subj))
    (ta : List PyScoreVal) (sa : List (List ℚ)) (tT : PyScoreVal)
    (sT : List ℚ)
    (hev : evalScoresOf (EvaluateH cfg st dataRef subs splits nRepeats sv).1
        = some (ta, sa))
    (hsp : getEvalSplits cfg (evaluateTrainSubjectsUsed cfg subs) splits
        nRepeats sv = .ok (ns, sps))
    (hT : testScoresOf (TestFull cfg st dataRef tr te).1 = some (tT, sT)) :
    sa.length = nRepeats * ns
    ∧ ta.length = nRepeats * ns
    ∧ (∀ v ∈ sa, v.length = cfg.metricStrs.length)
    ∧ (cfg.computeTrainScore = true →
        ∀ x ∈ ta, ∃ v, x = .arr v ∧ v.length = cfg.metricStrs.length)
    ∧ (cfg.computeTrainScore = false → ∀ x ∈ ta, x = .intZero)
    ∧ sT.length = cfg.metricStrs.length
    ∧ (cfg.computeTrainScore = true →
        ∃ v, tT = .arr v ∧ v.length = cfg.metricStrs.length)
    ∧ (cfg.computeTrainScore = false → tT = .intZero) := by
  have hlen := getEvalSplits_length cfg _ splits nRepeats sv ns sps hsp
  simp only [EvaluateH, hsp] at hev
  rcases hL : evalLoop cfg dataRef sps 0
      (setNSplits (initRawPredsDf st (evaluateTrainSubjectsUsed cfg subs)) ns)
      with ⟨acc, stL⟩
  rw [hL] at hev
  cases acc with
  | error e => exact absurd hev (by simp [evalScoresOf])
  | ok a =>
    simp only [evalScoresOf, Option.some.injEq, Prod.mk.injEq] at hev
    obtain ⟨hta, hsa⟩ := hev
    obtain ⟨e1, e2, e3, e4, e5⟩ :=
      evalLoop_ok_shapes cfg dataRef sps 0 _ a stL hL
    rw [TestFull] at hT
    rcases hTe : TestH cfg st dataRef tr te .test with ⟨res, stT⟩
    rw [hTe] at hT
    cases res with
    | error e => exact absurd hT (by simp [testScoresOf])
    | ok r =>
      simp only [testScoresOf, Option.some.injEq, Prod.mk.injEq] at hT
      obtain ⟨htT, hsT⟩ := hT
      obtain ⟨t1, t2, t3⟩ := TestH_ok_scores cfg st dataRef tr te .test r
        (by rw [hTe])
      subst hta hsa htT hsT
      exact ⟨hlen ▸ e2, hlen ▸ e1, e3, e4, e5, t1, t2, t3⟩

/-- Witness for C2 (amended): the concrete `Evaluate` run (2 repeats,
2 splits, 1 metric, train scoring enabled) has the stated shapes. -/
theorem claim_score_array_shapes_witness :
    [[(0 : ℚ)], [0], [0], [0]].length = 2 * 2
    ∧ [PyScoreVal.arr [0], .arr [0], .arr [0], .arr [0]].length = 2 * 2 := by
  have h := claim_score_array_shapes cfgW stW 0 [0, 1] [2, 3] [0, 1, 2, 3]
    2 2 2 none
    [([2, 3], [0, 1]), ([0, 1], [2, 3]), ([2, 3], [0, 1]), ([0, 1], [2, 3])]
    [PyScoreVal.arr [0], .arr [0], .arr [0], .arr [0]]
    [[(0 : ℚ)], [0], [0], [0]] (PyScoreVal.arr [0]) [0]
    (by rfl) (by rfl) (by rfl)
  exact ⟨h.1, h.2.1⟩

/-- C6: after `_add_raw_preds` records a fold's predictions, the ledger's
fold-tag column `<prefix><repeat>_fold` holds, for that fold's test
subjects, the fold tag that produced the prediction —
`str(fold_ind % n_splits + 1)` for an integer fold index and the
sentinel `'test'` for the final `Test` call.  The hypothesis rules out a
target key named like the fold-tag column (which the later ground-truth
copy would overwrite). -/
theorem claim_fold_tag_column (cfg : Cfg) (fitted : Fitted) (st : EngineState)
    (X : Matrix) (y : YArr) (subjects : List Subj) (evalType : String)
    (foldInd : FoldInd) (s : Subj)
    (hcol : ∀ t ∈ groundTruthCols cfg y,
      t ≠ evalType ++ (foldRepeatStrings st.nSplits foldInd).2 ++ "_fold")
    (hs : s ∈ subjects) :
    ((addRawPreds cfg fitted st X y subjects evalType foldInd).heap
        st.rawPredsRef).cells
      (evalType ++ (foldRepeatStrings st.nSplits foldInd).2 ++ "_fold") s
      = some (.str (foldRepeatStrings st.nSplits foldInd).1)
    ∧ (∀ i ns, foldInd = .num i → st.nSplits = some ns →
        (foldRepeatStrings st.nSplits foldInd).1 = toString (i % ns + 1))
    ∧ (foldInd = .test → (foldRepeatStrings st.nSplits foldInd).1 = "test") := by
  refine ⟨?_, ?_, ?_⟩
  · simp only [addRawPreds, updateLedger_heap_self]
    rw [truthWrites_cells_notin cfg y subjects _ _ s
      (fun t ht => (hcol t ht).symm)]
    exact writeColScalar_cells_mem _ _ subjects _ s hs
  · intro i ns hfi hns
    subst hfi
    rw [hns]
    rfl
  · intro hfi
    subst hfi
    rfl

/-- Witness for C6: fold index 4 with `n_splits_ = 3` tags the test
subjects with fold `"2"` in column `"2_fold"` (repeat 2, fold 2). -/
theorem claim_fold_tag_column_witness :
    ((addRawPreds cfgW 0 stW2 [[1], [2]] (YArr.one [0, 1]) [2, 3] ""
        (.num 4)).heap stW2.rawPredsRef).cells
      ("" ++ (foldRepeatStrings stW2.nSplits (.num 4)).2 ++ "_fold") 2
      = some (.str (foldRepeatStrings stW2.nSplits (.num 4)).1)
    ∧ (foldRepeatStrings stW2.nSplits (.num 4)).1 = toString (4 % 3 + 1) :=
  have h := claim_fold_tag_column cfgW 0 stW2 [[1], [2]] (YArr.one [0, 1])
    [2, 3] "" (.num 4) 2 (by decide) (by decide)
  ⟨h.1, h.2.1 4 3 rfl rfl⟩

/- ------------------------------------------------------------------ -/
/- Scope-resolver lemmas (C7)                                          -/
/- ------------------------------------------------------------------ -/

theorem eraseKeys_subset (ends : List Key) : ∀ (l : List Key),
    eraseKeys l ends ⊆ l := by
  induction ends with
  | nil => intro l a ha; exact ha
  | cons e t ih =>
    intro l a ha
    rw [show eraseKeys l (e :: t) = eraseKeys (l.erase e) t from rfl] at ha
    exact List.erase_subset e l (ih (l.erase e) ha)

theorem eraseKeys_nodup (ends : List Key) : ∀ (l : List Key), l.Nodup →
    (eraseKeys l ends).Nodup := by
  induction ends with
  | nil => intro l hl; exact hl
  | cons e t ih =>
    intro l hl
    rw [show eraseKeys l (e :: t) = eraseKeys (l.erase e) t from rfl]
    exact ih (l.erase e) (hl.erase e)

/-- On a duplicate-free list, the `keys.remove` loop removes every listed
key completely. -/
theorem eraseKeys_not_mem (ends : List Key) : ∀ (l : List Key), l.Nodup →
    ∀ k ∈ ends, k ∉ eraseKeys l ends := by
  induction ends with
  | nil => intro l _ k hk; exact absurd hk (List.not_mem_nil k)
  | cons e t ih =>
    intro l hl k hk
    rw [show eraseKeys l (e :: t) = eraseKeys (l.erase e) t from rfl]
    rcases List.mem_cons.mp hk with hk | hk
    · subst hk
      intro hmem
      exact hl.not_mem_erase (eraseKeys_subset t _ hmem)
    · exact ih (l.erase e) (hl.erase e) k hk

theorem presetRawKeys_nodup (sd : ScopesData) (tks : List Key) (s : String)
    (hAll : (allKeysInit sd tks).Nodup) (hFile : sd.dataFileKeys.Nodup)
    (hCat : sd.catKeys.Nodup) :
    (presetRawKeys sd (allKeysInit sd tks) s).Nodup := by
  have h1 : (sd.dataKeys ++ (sd.covarsKeys ++ keysAtEnd sd tks)).Nodup := by
    simpa [allKeysInit, List.append_assoc] using hAll
  have hData : sd.dataKeys.Nodup := h1.of_append_left
  have hCov : sd.covarsKeys.Nodup := h1.of_append_right.of_append_left
  unfold presetRawKeys
  split
  · exact hAll.filter _
  · split
    · exact hData
    · split
      · exact hFile
      · split
        · exact hAll.filter _
        · split
          · exact hAll
          · split
            · exact hCat
            · split
              · exact hCov
              · exact List.nodup_nil

theorem getKeysFromScope_nodup (sd : ScopesData) (tks : List Key)
    (scope : ScopeInput)
    (hAll : (allKeysInit sd tks).Nodup) (hFile : sd.dataFileKeys.Nodup)
    (hCat : sd.catKeys.Nodup) :
    (getKeysFromScope sd (allKeysInit sd tks) (keysAtEnd sd tks) scope).Nodup := by
  cases scope with
  | strScope s =>
    simp only [getKeysFromScope]
    by_cases hsc : s ∈ SCOPES
    · rw [if_pos hsc]
      exact eraseKeys_nodup _ _ (presetRawKeys_nodup sd tks s hAll hFile hCat)
    · rw [if_neg hsc]
      exact eraseKeys_nodup _ _ (List.nodup_dedup _)
  | listScope l =>
    exact eraseKeys_nodup _ _ (List.nodup_dedup _)

/-- `get_keys_from_scope` never returns a strat or target key. -/
theorem getKeysFromScope_not_mem_ends (sd : ScopesData) (tks : List Key)
    (scope : ScopeInput)
    (hAll : (allKeysInit sd tks).Nodup) (hFile : sd.dataFileKeys.Nodup)
    (hCat : sd.catKeys.Nodup) :
    ∀ k ∈ keysAtEnd sd tks,
      k ∉ getKeysFromScope sd (allKeysInit sd tks) (keysAtEnd sd tks) scope := by
  cases scope with
  | strScope s =>
    simp only [getKeysFromScope]
    by_cases hsc : s ∈ SCOPES
    · rw [if_pos hsc]
      exact eraseKeys_not_mem _ _ (presetRawKeys_nodup sd tks s hAll hFile hCat)
    · rw [if_neg hsc]
      exact eraseKeys_not_mem _ _ (List.nodup_dedup _)
  | listScope l =>
    exact eraseKeys_not_mem _ _ (List.nodup_dedup _)

/-- C7: for every scope, the resolved key list is deduplicated with the
strat keys and target key(s) guaranteed last — `set_all_keys` yields
exactly the scoped feature keys followed by the strat keys followed by
the target key(s) — and `get_keys_from_scope` never includes a strat or
target key in the feature portion it returns.  The hypotheses are the
well-formedness of the `Scopes` key lists (no duplicate column keys). -/
theorem claim_scope_resolution (sd : ScopesData) (scope : ScopeInput)
    (tks : List Key)
    (hAll : (allKeysInit sd tks).Nodup) (hFile : sd.dataFileKeys.Nodup)
    (hCat : sd.catKeys.Nodup) :
    setAllKeys sd scope tks
      = getKeysFromScope sd (allKeysInit sd tks) (keysAtEnd sd tks) scope
        ++ sd.stratKeys ++ tks
    ∧ (setAllKeys sd scope tks).Nodup
    ∧ ∀ k ∈ keysAtEnd sd tks,
        k ∉ getKeysFromScope sd (allKeysInit sd tks) (keysAtEnd sd tks) scope := by
  have hscoped := getKeysFromScope_nodup sd tks scope hAll hFile hCat
  have hnotmem := getKeysFromScope_not_mem_ends sd tks scope hAll hFile hCat
  have hke : (keysAtEnd sd tks).Nodup := by
    have h1 : (sd.dataKeys ++ (sd.covarsKeys ++ keysAtEnd sd tks)).Nodup := by
      simpa [allKeysInit, List.append_assoc] using hAll
    exact h1.of_append_right.of_append_right
  refine ⟨?_, ?_, hnotmem⟩
  · simp [setAllKeys, keysAtEnd, List.append_assoc]
  · rw [setAllKeys, List.nodup_append]
    exact ⟨hscoped, hke, fun a ha hb => hnotmem a hb ha⟩

/-- A concrete `Scopes` table for the C7 witness. -/
def sdW : ScopesData where
  dataKeys := ["d1", "d2"]
  dataFileKeys := ["d1"]
  catKeys := ["c1"]
  stratKeys := ["s1"]
  covarsKeys := ["c1", "v2"]

/-- Witness for C7: a concrete list scope mixing a preset scope name, a
column name, and a restriction stub. -/
theorem claim_scope_resolution_witness :
    (setAllKeys sdW (.listScope ["data", "v2", "d"]) ["t1"]).Nodup
    ∧ ∀ k ∈ keysAtEnd sdW ["t1"],
        k ∉ getKeysFromScope sdW (allKeysInit sdW ["t1"])
            (keysAtEnd sdW ["t1"]) (.listScope ["data", "v2", "d"]) :=
  have h := claim_scope_resolution sdW (.listScope ["data", "v2", "d"]) ["t1"]
    (by decide) (by decide) (by decide)
  ⟨h.2.1, h.2.2⟩

end ABCDML
